import Mathlib

/-!
Verification development for the fonterator library (`src/lib.rs`).

The source delegates raw font-table parsing to the external collaborator
`stb_truetype` and Unicode normalization to `unicode_normalization`; both are
modelled abstractly here (`FontInfo`, `TT`, and an `nfc` function parameter),
exactly as the source treats them: black boxes with a narrow interface.
`f32` values are modelled as exact rationals (`ℚ`); `f32` equality in the
source becomes `ℚ` equality.  Rust panics (failed `assert!`, `unwrap` on
`None`, out-of-range slice indexing) are modelled as `none` results.
-/

namespace Fonterator

/-- A 2D vector (`Vec2(pub f32, pub f32)` in the source); field `x` is `.0`,
field `y` is `.1`. -/
structure Vec2 where
  x : ℚ
  y : ℚ
deriving DecidableEq

/-- An operation that builds a path (the `PathOp` enum of the source). -/
inductive PathOp
  /-- Move somewhere else `x, y`. -/
  | MoveTo (x y : ℚ)
  /-- Next point in edge `x, y`. -/
  | LineTo (x y : ℚ)
  /-- Quadratic curve `x, y, cx, cy`. -/
  | QuadTo (x y cx cy : ℚ)
  /-- Close the path with a line. -/
  | LineClose
  /-- Close the path with a quadratic curve `cx, cy`. -/
  | QuadClose (cx cy : ℚ)
deriving DecidableEq

/-- Tag of a raw outline vertex, as reported by `stb_truetype`'s
`Vertex::vertex_type()`. -/
inductive VertexType
  | MoveTo
  | LineTo
  | CurveTo
deriving DecidableEq

/-- A raw outline vertex from the font table accessor: endpoint `(x, y)` and,
for curves, control point `(cx, cy)`, in font design units (`i16` in the
source, modelled as `Int`). -/
structure Vertex where
  vtype : VertexType
  x : Int
  y : Int
  cx : Int
  cy : Int
deriving DecidableEq

/-- Raw horizontal metrics returned by `get_glyph_h_metrics` (integer design
units; the source converts `advance_width` with `as f32`). -/
structure TtHMetrics where
  advance_width : Int
  left_side_bearing : Int
deriving DecidableEq

/-- Raw vertical metrics returned by `get_v_metrics`. -/
structure TtVMetrics where
  ascent : Int
  descent : Int
  line_gap : Int
deriving DecidableEq

/-- The font table accessor (`tt::FontInfo`), an external collaborator treated
as a black box: an arbitrary bundle of lookup functions over one font. -/
structure FontInfo where
  find_glyph_index : Nat → Nat
  get_num_glyphs : Nat
  get_glyph_h_metrics : Nat → TtHMetrics
  get_glyph_kern_advance : Nat → Nat → Int
  get_v_metrics : TtVMetrics
  scale_for_pixel_height : ℚ → ℚ
  get_glyph_shape : Nat → Option (List Vertex)
  units_per_em : Nat

/-- A single font (`struct Font { info: tt::FontInfo<...> }`). -/
structure Font where
  info : FontInfo

/-- The private pair `GlyphInner(Font, u32)` of the source. -/
structure GlyphInner where
  font : Font
  gid : Nat

/-- A single glyph: the inner (font, id) pair plus the scale `v : Vec2`. -/
structure Glyph where
  inner : GlyphInner
  v : Vec2

/-- `Glyph::font()` of the source. -/
def Glyph.font (g : Glyph) : Font :=
  g.inner.font

/-- `Glyph::id()` of the source (the `u32` inside `GlyphId`). -/
def Glyph.id (g : Glyph) : Nat :=
  g.inner.gid

/-- A glyph designator: the three implementors of the `IntoGlyphId` trait
(`char`, `Codepoint`, `GlyphId`). -/
inductive GlyphDes
  | ofChar (c : Nat)
  | codepoint (c : Nat)
  | glyphId (g : Nat)

/-- The `into_glyph_id` trait method: `char` and `Codepoint` consult
`find_glyph_index`, an already-resolved `GlyphId` is returned as is. -/
def GlyphDes.into_glyph_id (d : GlyphDes) (f : Font) : Nat :=
  match d with
  | .ofChar c => f.info.find_glyph_index c
  | .codepoint c => f.info.find_glyph_index c
  | .glyphId g => g

/-- `Font::glyph_count()`. -/
def Font.glyph_count (f : Font) : Nat :=
  f.info.get_num_glyphs

/-- `Font::glyph(id, v)`.  The source asserts
`(gid.0 as usize) < self.glyph_count()`; a failed assertion is a Rust panic,
modelled as `none`. -/
def Font.glyph (f : Font) (id : GlyphDes) (v : Vec2) : Option Glyph :=
  let gid := id.into_glyph_id f
  if gid < f.glyph_count then some ⟨⟨f, gid⟩, v⟩ else none

/-- `Font::v_metrics(scale)`: `(ascent as f32) * scale.1`. -/
def Font.v_metrics (f : Font) (scale : Vec2) : ℚ :=
  (f.info.get_v_metrics.ascent : ℚ) * scale.y

/-- `Font::pair_kerning(scale, v, first, second)`: resolves both designators
through `Font::glyph` (whose assertion can panic, hence `Option`), then
returns `factor * kern` with
`factor = scale_for_pixel_height(scale.1) * (scale.0 / scale.1)`. -/
def Font.pair_kerning (f : Font) (scale : ℚ × ℚ) (v : Vec2)
    (first second : GlyphDes) : Option ℚ :=
  match f.glyph first v, f.glyph second v with
  | some fg, some sg =>
    some (f.info.scale_for_pixel_height scale.2 * (scale.1 / scale.2)
      * (f.info.get_glyph_kern_advance fg.id sg.id : ℚ))
  | _, _ => none

/-- `Font::kerning(scale, v, first, second)`: forwards the two glyphs' ids to
`pair_kerning`. -/
def Font.kerning (f : Font) (scale : ℚ × ℚ) (v : Vec2)
    (first second : Glyph) : Option ℚ :=
  f.pair_kerning scale v (.glyphId first.id) (.glyphId second.id)

/-- The state of the `GlyphIterator` over a string: font, requested pixel
scale (`api_scale`), derived scale factors (`scale`), the normalized
character sequence (code points as `Nat`), the cursor, and the previously
yielded glyph. -/
structure GlyphIterator where
  font : Font
  api_scale : ℚ × ℚ
  scale : Vec2
  string : List Nat
  cursor : Nat
  last : Option Glyph

/-- `Font::glyphs(text, scale)`.  The external Unicode NFC normalization is
passed in as the function `nfc`, and `text` is the sequence of code points of
`text.to_string()`. -/
def Font.glyphs (f : Font) (nfc : List Nat → List Nat) (text : List Nat)
    (scale : ℚ × ℚ) : GlyphIterator :=
  let scale_y := f.info.scale_for_pixel_height scale.2
  let scale_x := scale_y * scale.1 / scale.2
  { font := f
    api_scale := scale
    scale := ⟨scale_x, scale_y⟩
    string := nfc text
    cursor := 0
    last := none }

/-- One step of `<GlyphIterator as Iterator>::next`.  The outer `Option` is
panic propagation (`none` = the step panicked: either the assertion inside
`Font::glyph` failed or `self.last.as_ref().unwrap()` hit `None`); the inner
`Option` is the Rust iterator's yield (`none` = exhausted).  On success the
updated iterator state is returned alongside the yielded item. -/
def GlyphIterator.next (it : GlyphIterator) :
    Option (Option (Glyph × ℚ) × GlyphIterator) :=
  match it.string.get? it.cursor with
  | none => some (none, it)
  | some c =>
    match it.font.glyph (GlyphDes.ofChar c) it.scale with
    | none => none
    | some glyph =>
      let base := ((it.font.info.get_glyph_h_metrics glyph.id).advance_width : ℚ)
        * it.scale.x
      if it.cursor ≠ 0 then
        match it.last with
        | none => none
        | some lg =>
          match it.font.kerning it.api_scale it.scale lg glyph with
          | none => none
          | some k =>
            some (some (glyph, base + k),
              { it with last := some glyph, cursor := it.cursor + 1 })
      else
        some (some (glyph, base),
          { it with last := some glyph, cursor := it.cursor + 1 })

/-- The vertex walk inside `Glyph::draw`: running `origin` starts at `(0,0)`
and is reset by every `MoveTo`; `LineTo`/`CurveTo` endpoints equal (exactly)
to the running origin become `LineClose`/`QuadClose`. -/
def drawVerts (w : Vec2) (point_x point_y : ℚ) :
    List Vertex → ℚ × ℚ → List PathOp
  | [], _ => []
  | vert :: rest, origin =>
    let x := (vert.x : ℚ) * w.x + point_x
    let y := -(vert.y : ℚ) * w.y + point_y
    match vert.vtype with
    | .LineTo =>
      (if x = origin.1 ∧ y = origin.2 then PathOp.LineClose
       else PathOp.LineTo x y) :: drawVerts w point_x point_y rest origin
    | .CurveTo =>
      (if x = origin.1 ∧ y = origin.2 then
        PathOp.QuadClose ((vert.cx : ℚ) * w.x + point_x)
          (-(vert.cy : ℚ) * w.y + point_y)
       else
        PathOp.QuadTo x y ((vert.cx : ℚ) * w.x + point_x)
          (-(vert.cy : ℚ) * w.y + point_y))
        :: drawVerts w point_x point_y rest origin
    | .MoveTo => PathOp.MoveTo x y :: drawVerts w point_x point_y rest (x, y)

/-- `Glyph::draw(point_x, point_y)`: adds the ascent-based baseline offset to
`point_y` once, fetches the raw shape (`unwrap_or_else(Vec::new)`), and walks
the vertices. -/
def Glyph.draw (g : Glyph) (point_x point_y : ℚ) : List PathOp :=
  let point_y := point_y + g.font.v_metrics g.v
  let shape := (g.font.info.get_glyph_shape g.id).getD []
  drawVerts g.v point_x point_y shape (0, 0)

/-- The `Error` enum of the source. -/
inductive Error
  | UnrecognizedFormat
  | IllFormed
  | CollectionIndexOutOfBounds
  | CollectionContainsMultipleFonts
deriving DecidableEq

/-- The free functions of the `stb_truetype` collaborator used by
`FontCollection`, treated as a black box over the raw byte buffer. -/
structure TT where
  is_font : List Nat → Bool
  get_font_offset_for_index : List Nat → Nat → Option Nat
  font_info_new : List Nat → Nat → Option FontInfo

/-- `struct FontCollection(SharedBytes)`: just the wrapped byte buffer. -/
structure FontCollection where
  bytes : List Nat
deriving DecidableEq

/-- The four bytes of the collection tag `b"ttcf"`. -/
def ttcfTag : List Nat :=
  [116, 116, 99, 102]

/-- `FontCollection::new(bytes)`.  The source evaluates
`!tt::is_font(&bytes) && &bytes[0..4] != b"ttcf"`; when `is_font` is false
and the buffer is shorter than four bytes, the slice expression
`&bytes[0..4]` panics, modelled as `none`. -/
def FontCollection.new (tt : TT) (bytes : List Nat) :
    Option (Except Error FontCollection) :=
  if tt.is_font bytes then some (.ok ⟨bytes⟩)
  else if bytes.length < 4 then none
  else if bytes.take 4 = ttcfTag then some (.ok ⟨bytes⟩)
  else some (.error Error.UnrecognizedFormat)

/-- `FontCollection::into_font()`: choose the table offset (single font → 0;
offset present at index 1 → `CollectionContainsMultipleFonts`; no offset at
index 0 → `IllFormed`), then build the accessor, `IllFormed` on failure. -/
def FontCollection.into_font (tt : TT) (c : FontCollection) :
    Except Error Font :=
  match (if tt.is_font c.bytes then Except.ok 0
    else if (tt.get_font_offset_for_index c.bytes 1).isSome then
      Except.error Error.CollectionContainsMultipleFonts
    else
      match tt.get_font_offset_for_index c.bytes 0 with
      | none => Except.error Error.IllFormed
      | some off => Except.ok off : Except Error Nat) with
  | .error e => .error e
  | .ok off =>
    match tt.font_info_new c.bytes off with
    | none => .error Error.IllFormed
    | some info => .ok ⟨info⟩

/-- `FontCollection::font_at(i)`. -/
def FontCollection.font_at (tt : TT) (c : FontCollection) (i : Nat) :
    Except Error Font :=
  match tt.get_font_offset_for_index c.bytes i with
  | none => .error Error.CollectionIndexOutOfBounds
  | some off =>
    match tt.font_info_new c.bytes off with
    | none => .error Error.IllFormed
    | some info => .ok ⟨info⟩

/-- Outcome of the `into_fonts` loop: either the collected fonts, or a panic
(`result.unwrap()` on an `Err` that is not `CollectionIndexOutOfBounds`). -/
inductive FontsResult
  | ok (fonts : List Font)
  | aborted

/-- The `loop` inside `FontCollection::into_fonts`, starting at `index`.
The Rust loop is unbounded, so it is modelled with explicit `fuel`; `none`
means the fuel ran out before the loop terminated. -/
def FontCollection.into_fonts_aux (tt : TT) (c : FontCollection) :
    Nat → Nat → Option FontsResult
  | 0, _ => none
  | fuel + 1, index =>
    match c.font_at tt index with
    | .error .CollectionIndexOutOfBounds => some (.ok [])
    | .error _ => some .aborted
    | .ok f =>
      match c.into_fonts_aux tt fuel (index + 1) with
      | none => none
      | some .aborted => some .aborted
      | some (.ok l) => some (.ok (f :: l))

/-- `FontCollection::into_fonts()` (with fuel for the unbounded loop). -/
def FontCollection.into_fonts (tt : TT) (c : FontCollection) (fuel : Nat) :
    Option FontsResult :=
  c.into_fonts_aux tt fuel 0

/-- Reachable states of the layout iterator: the state `Font::glyphs` builds,
and anything a non-panicking `next` step leads to. -/
inductive Reach (f : Font) (nfc : List Nat → List Nat) (text : List Nat)
    (sc : ℚ × ℚ) : GlyphIterator → Prop
  | init : Reach f nfc text sc (f.glyphs nfc text sc)
  | step {it : GlyphIterator} {p : Option (Glyph × ℚ)} {it' : GlyphIterator} :
      Reach f nfc text sc it → it.next = some (p, it') → Reach f nfc text sc it'

/-- The glyph `next` resolves the character `c` to: id from
`find_glyph_index`, this font, the given scale. -/
def Font.glyphAt (f : Font) (c : Nat) (v : Vec2) : Glyph :=
  ⟨⟨f, f.info.find_glyph_index c⟩, v⟩

/-- The kerning-free part of the advance `next` computes for character `c`:
the glyph's raw advance width times `scale_x`. -/
def GlyphIterator.baseAdvance (it : GlyphIterator) (c : Nat) : ℚ :=
  ((it.font.info.get_glyph_h_metrics (it.font.info.find_glyph_index c)).advance_width : ℚ)
    * it.scale.x

/-- The kerning adjustment `next` adds between the previous glyph `lg` and the
glyph of character `c`. -/
def GlyphIterator.kernAdjust (it : GlyphIterator) (lg : Glyph) (c : Nat) : ℚ :=
  it.font.info.scale_for_pixel_height it.api_scale.2
    * (it.api_scale.1 / it.api_scale.2)
    * (it.font.info.get_glyph_kern_advance lg.id (it.font.info.find_glyph_index c) : ℚ)

/-- The iterator state after a successful `next` step that yielded `g`. -/
def GlyphIterator.stepState (it : GlyphIterator) (g : Glyph) : GlyphIterator :=
  { it with last := some g, cursor := it.cursor + 1 }

/-! ### Concrete instances used by witnesses and counterexamples -/

/-- Identity normalization, for concrete layouts of already-normalized text. -/
def nfc0 : List Nat → List Nat :=
  fun l => l

/-- A concrete two-glyph font-table accessor. -/
def fi0 : FontInfo :=
  { find_glyph_index := fun _ => 0
    get_num_glyphs := 2
    get_glyph_h_metrics := fun _ => ⟨600, 50⟩
    get_glyph_kern_advance := fun _ _ => -40
    get_v_metrics := ⟨800, -200, 90⟩
    scale_for_pixel_height := fun h => h / 1000
    get_glyph_shape := fun _ => none
    units_per_em := 1000 }

/-- A concrete font over `fi0`. -/
def f0 : Font :=
  ⟨fi0⟩

end Fonterator

namespace Fonterator

/-! ### Helper lemmas on glyph resolution and the iterator step -/

theorem glyph_eval (f : Font) (d : GlyphDes) (v : Vec2)
    (h : d.into_glyph_id f < f.glyph_count) :
    f.glyph d v = some ⟨⟨f, d.into_glyph_id f⟩, v⟩ := by
  unfold Font.glyph
  simp [h]

theorem glyph_eval_none (f : Font) (d : GlyphDes) (v : Vec2)
    (h : ¬ d.into_glyph_id f < f.glyph_count) :
    f.glyph d v = none := by
  unfold Font.glyph
  simp [h]

theorem kerning_eval (f : Font) (api : ℚ × ℚ) (v : Vec2) (lg g : Glyph)
    (h1 : lg.id < f.glyph_count) (h2 : g.id < f.glyph_count) :
    f.kerning api v lg g
      = some (f.info.scale_for_pixel_height api.2 * (api.1 / api.2)
          * (f.info.get_glyph_kern_advance lg.id g.id : ℚ)) := by
  unfold Font.kerning Font.pair_kerning
  simp only [glyph_eval f (GlyphDes.glyphId lg.id) v h1,
    glyph_eval f (GlyphDes.glyphId g.id) v h2]
  simp [Glyph.id, GlyphDes.into_glyph_id]

theorem next_exhausted (it : GlyphIterator)
    (h : it.string.get? it.cursor = none) :
    it.next = some (none, it) := by
  unfold GlyphIterator.next
  rw [h]

theorem next_at_first (it : GlyphIterator) (c : Nat)
    (hc : it.string.get? it.cursor = some c) (h0 : it.cursor = 0)
    (hg : it.font.info.find_glyph_index c < it.font.glyph_count) :
    it.next = some (some (it.font.glyphAt c it.scale, it.baseAdvance c),
      it.stepState (it.font.glyphAt c it.scale)) := by
  unfold GlyphIterator.next
  simp only [hc, glyph_eval it.font (GlyphDes.ofChar c) it.scale hg]
  simp [h0, Font.glyphAt, GlyphIterator.baseAdvance, GlyphIterator.stepState,
    Glyph.id, GlyphDes.into_glyph_id]

theorem next_at_kern (it : GlyphIterator) (c : Nat) (lg : Glyph)
    (hc : it.string.get? it.cursor = some c) (h0 : it.cursor ≠ 0)
    (hl : it.last = some lg)
    (hg : it.font.info.find_glyph_index c < it.font.glyph_count)
    (hlg : lg.id < it.font.glyph_count) :
    it.next = some (some (it.font.glyphAt c it.scale,
        it.baseAdvance c + it.kernAdjust lg c),
      it.stepState (it.font.glyphAt c it.scale)) := by
  unfold GlyphIterator.next
  have hgl : (⟨⟨it.font, (GlyphDes.ofChar c).into_glyph_id it.font⟩, it.scale⟩ :
      Glyph).id < it.font.glyph_count := hg
  simp only [hc, glyph_eval it.font (GlyphDes.ofChar c) it.scale hg, hl,
    kerning_eval it.font it.api_scale it.scale lg _ hlg hgl, if_pos h0]
  simp [Font.glyphAt, GlyphIterator.baseAdvance, GlyphIterator.kernAdjust,
    GlyphIterator.stepState, Glyph.id, GlyphDes.into_glyph_id]

/-- Inversion of a non-panicking `next` step: either the iterator was
exhausted and unchanged, or the cursor advanced by one and a previous glyph
was stored. -/
theorem next_state (it : GlyphIterator) (p : Option (Glyph × ℚ))
    (it' : GlyphIterator) (h : it.next = some (p, it')) :
    it' = it ∨ (it'.cursor = it.cursor + 1 ∧ ∃ g, it'.last = some g) := by
  unfold GlyphIterator.next at h
  rcases hs : it.string.get? it.cursor with _ | c
  · simp only [hs, Option.some.injEq, Prod.mk.injEq] at h
    exact Or.inl h.2.symm
  · simp only [hs] at h
    rcases hgl : it.font.glyph (GlyphDes.ofChar c) it.scale with _ | glyph
    · simp only [hgl] at h
      exact Option.noConfusion h
    · simp only [hgl] at h
      by_cases h0 : it.cursor ≠ 0
      · rw [if_pos h0] at h
        rcases hlast : it.last with _ | lg
        · simp only [hlast] at h
          exact Option.noConfusion h
        · simp only [hlast] at h
          rcases hk : it.font.kerning it.api_scale it.scale lg glyph with _ | k
          · simp only [hk] at h
            exact Option.noConfusion h
          · simp only [hk, Option.some.injEq, Prod.mk.injEq] at h
            refine Or.inr ?_
            rw [← h.2]
            exact ⟨rfl, glyph, rfl⟩
      · rw [if_neg h0] at h
        simp only [Option.some.injEq, Prod.mk.injEq] at h
        refine Or.inr ?_
        rw [← h.2]
        exact ⟨rfl, glyph, rfl⟩

/-! ### Helper lemmas on the outline walk -/

theorem drawVerts_move (w : Vec2) (px py : ℚ) (vt : Vertex)
    (rest : List Vertex) (o : ℚ × ℚ) (h : vt.vtype = VertexType.MoveTo) :
    drawVerts w px py (vt :: rest) o
      = PathOp.MoveTo ((vt.x : ℚ) * w.x + px) (-(vt.y : ℚ) * w.y + py)
        :: drawVerts w px py rest
            ((vt.x : ℚ) * w.x + px, -(vt.y : ℚ) * w.y + py) := by
  obtain ⟨t, a, b, c2, d⟩ := vt
  cases h
  rfl

theorem drawVerts_line_close (w : Vec2) (px py : ℚ) (vt : Vertex)
    (rest : List Vertex) (ox oy : ℚ) (h : vt.vtype = VertexType.LineTo)
    (he : (vt.x : ℚ) * w.x + px = ox ∧ -(vt.y : ℚ) * w.y + py = oy) :
    drawVerts w px py (vt :: rest) (ox, oy)
      = PathOp.LineClose :: drawVerts w px py rest (ox, oy) := by
  obtain ⟨t, a, b, c2, d⟩ := vt
  cases h
  simp only [drawVerts]
  rw [if_pos he]

theorem drawVerts_line_open (w : Vec2) (px py : ℚ) (vt : Vertex)
    (rest : List Vertex) (ox oy : ℚ) (h : vt.vtype = VertexType.LineTo)
    (he : ¬ ((vt.x : ℚ) * w.x + px = ox ∧ -(vt.y : ℚ) * w.y + py = oy)) :
    drawVerts w px py (vt :: rest) (ox, oy)
      = PathOp.LineTo ((vt.x : ℚ) * w.x + px) (-(vt.y : ℚ) * w.y + py)
        :: drawVerts w px py rest (ox, oy) := by
  obtain ⟨t, a, b, c2, d⟩ := vt
  cases h
  simp only [drawVerts]
  rw [if_neg he]

theorem drawVerts_curve_close (w : Vec2) (px py : ℚ) (vt : Vertex)
    (rest : List Vertex) (ox oy : ℚ) (h : vt.vtype = VertexType.CurveTo)
    (he : (vt.x : ℚ) * w.x + px = ox ∧ -(vt.y : ℚ) * w.y + py = oy) :
    drawVerts w px py (vt :: rest) (ox, oy)
      = PathOp.QuadClose ((vt.cx : ℚ) * w.x + px) (-(vt.cy : ℚ) * w.y + py)
        :: drawVerts w px py rest (ox, oy) := by
  obtain ⟨t, a, b, c2, d⟩ := vt
  cases h
  simp only [drawVerts]
  rw [if_pos he]

theorem drawVerts_curve_open (w : Vec2) (px py : ℚ) (vt : Vertex)
    (rest : List Vertex) (ox oy : ℚ) (h : vt.vtype = VertexType.CurveTo)
    (he : ¬ ((vt.x : ℚ) * w.x + px = ox ∧ -(vt.y : ℚ) * w.y + py = oy)) :
    drawVerts w px py (vt :: rest) (ox, oy)
      = PathOp.QuadTo ((vt.x : ℚ) * w.x + px) (-(vt.y : ℚ) * w.y + py)
          ((vt.cx : ℚ) * w.x + px) (-(vt.cy : ℚ) * w.y + py)
        :: drawVerts w px py rest (ox, oy) := by
  obtain ⟨t, a, b, c2, d⟩ := vt
  cases h
  simp only [drawVerts]
  rw [if_neg he]

/-- A glyph whose raw outline lookup yields no vertices draws to `[]`. -/
theorem draw_nil (g : Glyph) (px py : ℚ)
    (hsh : g.font.info.get_glyph_shape g.id = none
      ∨ g.font.info.get_glyph_shape g.id = some []) :
    g.draw px py = [] := by
  rcases hsh with h | h <;> simp [Glyph.draw, h, drawVerts]

/-! ### Further concrete collaborator instances -/

/-- A collaborator reporting a collection with offsets at indices 0 and 1. -/
def ttMulti : TT :=
  { is_font := fun _ => false
    get_font_offset_for_index := fun _ i => if i ≤ 1 then some (12 * i) else none
    font_info_new := fun _ _ => some fi0 }

/-- A collaborator recognizing the single-font tag `[0,1,0,0]`. -/
def ttSingle : TT :=
  { is_font := fun b => decide (b.take 4 = [0, 1, 0, 0])
    get_font_offset_for_index := fun _ _ => none
    font_info_new := fun _ _ => some fi0 }

/-- A format sniffer with the behavior of `stb_truetype::is_font` on the tags
`[0,1,0,0]` and `"true"`; like the real one, it rejects every buffer shorter
than four bytes. -/
def ttStb : TT :=
  { is_font := fun b =>
      decide (b.take 4 = [0, 1, 0, 0]) || decide (b.take 4 = [116, 114, 117, 101])
    get_font_offset_for_index := fun _ _ => none
    font_info_new := fun _ _ => none }

/-! ### Claim theorems -/

/-- C7: `Font::glyph` validates the resolved identifier against
`glyph_count()`: it panics (modelled as `none`) exactly when the identifier is
not strictly below `glyph_count()`, and otherwise returns the glyph handle
carrying that identifier, this font, and the given scale. -/
theorem glyph_bound_check_spec (f : Font) (id : GlyphDes) (v : Vec2) :
    (f.glyph id v = none ↔ ¬ id.into_glyph_id f < f.glyph_count)
  ∧ (id.into_glyph_id f < f.glyph_count →
      f.glyph id v = some ⟨⟨f, id.into_glyph_id f⟩, v⟩) := by
  refine ⟨⟨?_, ?_⟩, ?_⟩
  · intro h hlt
    rw [glyph_eval f id v hlt] at h
    exact Option.noConfusion h
  · intro h
    exact glyph_eval_none f id v h
  · intro h
    exact glyph_eval f id v h

/-- Witness for C7 at the concrete two-glyph font `f0`: a pre-resolved
identifier 5 is out of range and panics, identifier 1 is in range. -/
theorem glyph_bound_check_wit :
    f0.glyph (GlyphDes.glyphId 5) ⟨1, 1⟩ = none
  ∧ f0.glyph (GlyphDes.glyphId 1) ⟨1, 1⟩ = some ⟨⟨f0, 1⟩, ⟨1, 1⟩⟩ := by
  refine ⟨?_, ?_⟩
  · exact (glyph_bound_check_spec f0 (GlyphDes.glyphId 5) ⟨1, 1⟩).1.mpr (by decide)
  · exact (glyph_bound_check_spec f0 (GlyphDes.glyphId 1) ⟨1, 1⟩).2 (by decide)

/-- C5: `glyphs` derives `scale_y = scale_for_pixel_height(y)` and
`scale_x = scale_y * x / y`, and `pair_kerning` returns the raw kerning-table
advance of the resolved pair multiplied by the factor
`scale_for_pixel_height(y) * (x / y)`. -/
theorem scale_derivation_spec (f : Font) (nfc : List Nat → List Nat)
    (text : List Nat) (x y : ℚ) :
    ((f.glyphs nfc text (x, y)).scale.y = f.info.scale_for_pixel_height y
      ∧ (f.glyphs nfc text (x, y)).scale.x
          = f.info.scale_for_pixel_height y * x / y)
  ∧ (∀ (v : Vec2) (a b : GlyphDes),
      a.into_glyph_id f < f.glyph_count → b.into_glyph_id f < f.glyph_count →
      f.pair_kerning (x, y) v a b
        = some ((f.info.get_glyph_kern_advance (a.into_glyph_id f)
              (b.into_glyph_id f) : ℚ)
            * (f.info.scale_for_pixel_height y * (x / y)))) := by
  refine ⟨⟨rfl, rfl⟩, ?_⟩
  intro v a b ha hb
  unfold Font.pair_kerning
  simp only [glyph_eval f a v ha, glyph_eval f b v hb, Option.some.injEq]
  simp [Glyph.id]
  ring

/-- Witness for C5 at `f0` with requested pixel scale `(12, 24)`. -/
theorem scale_derivation_wit :
    (f0.glyphs nfc0 [65] (12, 24)).scale.y = f0.info.scale_for_pixel_height 24
  ∧ (f0.glyphs nfc0 [65] (12, 24)).scale.x
      = f0.info.scale_for_pixel_height 24 * 12 / 24
  ∧ f0.pair_kerning (12, 24) ⟨1, 1⟩ (GlyphDes.glyphId 0) (GlyphDes.glyphId 1)
      = some ((f0.info.get_glyph_kern_advance 0 1 : ℚ)
          * (f0.info.scale_for_pixel_height 24 * (12 / 24))) := by
  refine ⟨(scale_derivation_spec f0 nfc0 [65] 12 24).1.1,
    (scale_derivation_spec f0 nfc0 [65] 12 24).1.2, ?_⟩
  exact (scale_derivation_spec f0 nfc0 [65] 12 24).2 ⟨1, 1⟩
    (GlyphDes.glyphId 0) (GlyphDes.glyphId 1) (by decide) (by decide)

/-- C3: the decision procedure of `into_font`: single font → offset 0;
otherwise an offset present at index 1 → `CollectionContainsMultipleFonts`;
otherwise no offset at index 0 → `IllFormed`; otherwise the offset at index 0
is used; and accessor construction failure at the chosen offset → `IllFormed`,
success → the font. -/
theorem into_font_decision_spec (tt : TT) (c : FontCollection) :
    (tt.is_font c.bytes = true →
      (tt.font_info_new c.bytes 0 = none →
        c.into_font tt = .error Error.IllFormed)
      ∧ ∀ i, tt.font_info_new c.bytes 0 = some i → c.into_font tt = .ok ⟨i⟩)
  ∧ (tt.is_font c.bytes = false →
      (tt.get_font_offset_for_index c.bytes 1).isSome = true →
      c.into_font tt = .error Error.CollectionContainsMultipleFonts)
  ∧ (tt.is_font c.bytes = false →
      tt.get_font_offset_for_index c.bytes 1 = none →
      tt.get_font_offset_for_index c.bytes 0 = none →
      c.into_font tt = .error Error.IllFormed)
  ∧ (tt.is_font c.bytes = false →
      tt.get_font_offset_for_index c.bytes 1 = none →
      ∀ off, tt.get_font_offset_for_index c.bytes 0 = some off →
      (tt.font_info_new c.bytes off = none →
        c.into_font tt = .error Error.IllFormed)
      ∧ ∀ i, tt.font_info_new c.bytes off = some i →
          c.into_font tt = .ok ⟨i⟩) := by
  refine ⟨?_, ?_, ?_, ?_⟩ <;> unfold FontCollection.into_font
  · intro h
    constructor
    · intro hn
      simp [h, hn]
    · intro i hi
      simp [h, hi]
  · intro h h1
    simp [h, h1]
  · intro h h1 h0
    simp [h, h1, h0]
  · intro h h1 off h0
    constructor
    · intro hn
      simp [h, h1, h0, hn]
    · intro i hi
      simp [h, h1, h0, hi]

/-- Witness for C3: a two-font collection is refused as ambiguous, and a
single-font buffer yields the font built at offset 0. -/
theorem into_font_decision_wit :
    FontCollection.into_font ttMulti ⟨[]⟩
      = .error Error.CollectionContainsMultipleFonts
  ∧ FontCollection.into_font ttSingle ⟨[0, 1, 0, 0]⟩ = .ok ⟨fi0⟩ := by
  refine ⟨?_, ?_⟩
  · exact (into_font_decision_spec ttMulti ⟨[]⟩).2.1 rfl rfl
  · exact ((into_font_decision_spec ttSingle ⟨[0, 1, 0, 0]⟩).1 (by decide)).2
      fi0 rfl

/-- C4 (code bug): on a buffer shorter than four bytes that is not a single
font, `FontCollection::new` panics on the slice `&bytes[0..4]` (modelled as
`none`) instead of returning `UnrecognizedFormat`; for buffers of at least
four bytes the claimed behavior holds: `Ok` when either signature matches,
`UnrecognizedFormat` otherwise. -/
theorem new_short_buffer_behavior :
    FontCollection.new ttStb [] = none
  ∧ FontCollection.new ttStb [116, 116, 99] = none
  ∧ FontCollection.new ttStb [0, 1, 0, 0] = some (.ok ⟨[0, 1, 0, 0]⟩)
  ∧ FontCollection.new ttStb [116, 116, 99, 102]
      = some (.ok ⟨[116, 116, 99, 102]⟩)
  ∧ FontCollection.new ttStb [9, 9, 9, 9]
      = some (.error Error.UnrecognizedFormat) :=
  ⟨rfl, rfl, rfl, rfl, rfl⟩

/-- C1: one step of the layout iterator: with the cursor on character `c`
(resolving in range), `next` yields the glyph at the computed scale together
with advance `advance_width * scale_x`, adds the pair kerning against the
previous glyph exactly when the cursor is nonzero, stores the current glyph
as previous and increments the cursor; and a one-character layout yields
exactly one pair whose advance is `advance_width * scale_x` with no kerning
term. -/
theorem glyph_iterator_next_spec :
    (∀ (it : GlyphIterator) (c : Nat),
      it.string.get? it.cursor = some c →
      it.font.info.find_glyph_index c < it.font.glyph_count →
      (it.cursor = 0 →
        it.next = some (some (it.font.glyphAt c it.scale, it.baseAdvance c),
          it.stepState (it.font.glyphAt c it.scale)))
      ∧ (∀ lg, it.last = some lg → lg.id < it.font.glyph_count →
          it.cursor ≠ 0 →
          it.font.kerning it.api_scale it.scale lg (it.font.glyphAt c it.scale)
            = some (it.kernAdjust lg c)
          ∧ it.next = some (some (it.font.glyphAt c it.scale,
              it.baseAdvance c + it.kernAdjust lg c),
            it.stepState (it.font.glyphAt c it.scale))))
  ∧ (∀ (f : Font) (nfc : List Nat → List Nat) (text : List Nat)
      (sc : ℚ × ℚ) (c : Nat),
      nfc text = [c] →
      f.info.find_glyph_index c < f.glyph_count →
      (f.glyphs nfc text sc).next
        = some (some ((f.glyphs nfc text sc).font.glyphAt c
              (f.glyphs nfc text sc).scale,
            ((f.info.get_glyph_h_metrics (f.info.find_glyph_index c)).advance_width : ℚ)
              * (f.glyphs nfc text sc).scale.x),
          (f.glyphs nfc text sc).stepState
            ((f.glyphs nfc text sc).font.glyphAt c (f.glyphs nfc text sc).scale))
      ∧ ((f.glyphs nfc text sc).stepState
            ((f.glyphs nfc text sc).font.glyphAt c
              (f.glyphs nfc text sc).scale)).next
          = some (none, (f.glyphs nfc text sc).stepState
              ((f.glyphs nfc text sc).font.glyphAt c
                (f.glyphs nfc text sc).scale))) := by
  constructor
  · intro it c hc hg
    refine ⟨fun h0 => next_at_first it c hc h0 hg, fun lg hl hlg h0 => ⟨?_, ?_⟩⟩
    · have hh : (it.font.glyphAt c it.scale).id < it.font.glyph_count := hg
      rw [kerning_eval it.font it.api_scale it.scale lg _ hlg hh]
      rfl
    · exact next_at_kern it c lg hc h0 hl hg hlg
  · intro f nfc text sc c hn hg
    have hc : (f.glyphs nfc text sc).string.get? (f.glyphs nfc text sc).cursor
        = some c := by
      show (nfc text).get? 0 = some c
      rw [hn]
      rfl
    refine ⟨next_at_first _ c hc rfl hg, ?_⟩
    apply next_exhausted
    show (nfc text).get? 1 = none
    rw [hn]
    rfl

/-- Witness for C1: laying out the one-character string `[65]` with `f0`. -/
theorem glyph_iterator_next_wit :
    (Font.glyphs f0 nfc0 [65] (16, 16)).next
      = some (some ((Font.glyphs f0 nfc0 [65] (16, 16)).font.glyphAt 65
            (Font.glyphs f0 nfc0 [65] (16, 16)).scale,
          ((f0.info.get_glyph_h_metrics (f0.info.find_glyph_index 65)).advance_width : ℚ)
            * (Font.glyphs f0 nfc0 [65] (16, 16)).scale.x),
        (Font.glyphs f0 nfc0 [65] (16, 16)).stepState
          ((Font.glyphs f0 nfc0 [65] (16, 16)).font.glyphAt 65
            (Font.glyphs f0 nfc0 [65] (16, 16)).scale))
  ∧ ((Font.glyphs f0 nfc0 [65] (16, 16)).stepState
        ((Font.glyphs f0 nfc0 [65] (16, 16)).font.glyphAt 65
          (Font.glyphs f0 nfc0 [65] (16, 16)).scale)).next
      = some (none, (Font.glyphs f0 nfc0 [65] (16, 16)).stepState
          ((Font.glyphs f0 nfc0 [65] (16, 16)).font.glyphAt 65
            (Font.glyphs f0 nfc0 [65] (16, 16)).scale)) :=
  glyph_iterator_next_spec.2 f0 nfc0 [65] (16, 16) 65 rfl (by decide)

/-- C9: a glyph whose raw outline lookup yields no vertices draws to the
empty path sequence, while the layout iterator still yields for its character
an advance taken from the horizontal metrics. -/
theorem empty_outline_spec (g : Glyph) (px py : ℚ)
    (hsh : g.font.info.get_glyph_shape g.id = none
      ∨ g.font.info.get_glyph_shape g.id = some []) :
    g.draw px py = []
  ∧ (∀ (it : GlyphIterator) (c : Nat),
      it.font = g.font → it.string.get? it.cursor = some c →
      it.font.info.find_glyph_index c = g.id →
      g.id < g.font.glyph_count →
      (it.cursor = 0 →
        it.next = some (some (it.font.glyphAt c it.scale, it.baseAdvance c),
          it.stepState (it.font.glyphAt c it.scale)))
      ∧ ∀ lg, it.last = some lg → lg.id < it.font.glyph_count →
          it.cursor ≠ 0 →
          it.next = some (some (it.font.glyphAt c it.scale,
              it.baseAdvance c + it.kernAdjust lg c),
            it.stepState (it.font.glyphAt c it.scale))) := by
  constructor
  · rcases hsh with h | h <;> simp [Glyph.draw, h, drawVerts]
  · intro it c hf hc hi hcount
    have hg : it.font.info.find_glyph_index c < it.font.glyph_count := by
      rw [hi, hf]
      exact hcount
    exact ⟨fun h0 => next_at_first it c hc h0 hg,
      fun lg hl hlg h0 => next_at_kern it c lg hc h0 hl hg hlg⟩

/-- Witness for C9: in `f0` every glyph has an empty outline; character 32
draws to the empty path, yet the layout of `[32]` yields an advance. -/
theorem empty_outline_wit :
    (⟨⟨f0, 0⟩, ⟨1, 1⟩⟩ : Glyph).draw 0 0 = []
  ∧ (Font.glyphs f0 nfc0 [32] (16, 16)).next
      = some (some ((Font.glyphs f0 nfc0 [32] (16, 16)).font.glyphAt 32
            (Font.glyphs f0 nfc0 [32] (16, 16)).scale,
          (Font.glyphs f0 nfc0 [32] (16, 16)).baseAdvance 32),
        (Font.glyphs f0 nfc0 [32] (16, 16)).stepState
          ((Font.glyphs f0 nfc0 [32] (16, 16)).font.glyphAt 32
            (Font.glyphs f0 nfc0 [32] (16, 16)).scale)) := by
  have h := empty_outline_spec (⟨⟨f0, 0⟩, ⟨1, 1⟩⟩ : Glyph) 0 0 (Or.inl rfl)
  exact ⟨h.1,
    (h.2 (Font.glyphs f0 nfc0 [32] (16, 16)) 32 rfl rfl rfl (by decide)).1 rfl⟩

/-- C10: the layout iterator starts with cursor 0 and no previous glyph; in
every reachable state a nonzero cursor implies the previous glyph is present,
so the `unwrap` in the kerning branch of `next` cannot panic; and every step
that increments the cursor also stores a previous glyph. -/
theorem iterator_last_invariant (f : Font) (nfc : List Nat → List Nat)
    (text : List Nat) (sc : ℚ × ℚ) :
    ((f.glyphs nfc text sc).cursor = 0 ∧ (f.glyphs nfc text sc).last = none)
  ∧ (∀ it, Reach f nfc text sc it → it.cursor ≠ 0 → ∃ g, it.last = some g)
  ∧ (∀ it, Reach f nfc text sc it → ¬ (it.cursor ≠ 0 ∧ it.last = none))
  ∧ (∀ (it : GlyphIterator) (p : Option (Glyph × ℚ)) (it' : GlyphIterator),
      it.next = some (p, it') → it'.cursor = it.cursor + 1 →
      ∃ g, it'.last = some g) := by
  have key : ∀ it, Reach f nfc text sc it → it.cursor ≠ 0 →
      ∃ g, it.last = some g := by
    intro it h
    induction h with
    | init => exact fun h0 => absurd rfl h0
    | step hR hnext ih =>
      intro h0
      rcases next_state _ _ _ hnext with he | ⟨_, hg⟩
      · rw [he] at h0 ⊢
        exact ih h0
      · exact hg
  refine ⟨⟨rfl, rfl⟩, key, ?_, ?_⟩
  · rintro it hR ⟨h0, hn⟩
    rcases key it hR h0 with ⟨g, hg⟩
    rw [hn] at hg
    exact Option.noConfusion hg
  · intro it p it' hnext hc
    rcases next_state it p it' hnext with he | ⟨_, hg⟩
    · rw [he] at hc
      omega
    · exact hg

/-- Witness for C10: the state reached after one step of laying out `[65]`
with `f0` has a nonzero cursor and indeed stores a previous glyph. -/
theorem iterator_last_invariant_wit :
    ∃ g, ((Font.glyphs f0 nfc0 [65] (16, 16)).stepState
      ((Font.glyphs f0 nfc0 [65] (16, 16)).font.glyphAt 65
        (Font.glyphs f0 nfc0 [65] (16, 16)).scale)).last = some g :=
  (iterator_last_invariant f0 nfc0 [65] (16, 16)).2.1 _
    (Reach.step Reach.init (next_at_first _ 65 rfl rfl (by decide)))
    (by decide)

/-- C2: `draw` adds the ascent-based baseline offset to `point_y` exactly once
before walking the vertices; each endpoint is transformed to
`x = vx*scaleX + point_x`, `y = -vy*scaleY + point_y`; a `MoveTo` vertex
emits `MoveTo(x,y)` and resets the running origin; a `LineTo` vertex emits
`LineClose` instead of `LineTo(x,y)` exactly when the transformed endpoint
equals the running origin (exact equality on the transformed coordinates),
and a `CurveTo` vertex likewise emits `QuadClose(cx,cy)` instead of
`QuadTo(x,y,cx,cy)` exactly when its transformed endpoint equals the running
origin. -/
theorem draw_transform_spec (g : Glyph) (px py : ℚ) :
    g.draw px py
      = drawVerts g.v px (py + (g.font.info.get_v_metrics.ascent : ℚ) * g.v.y)
          ((g.font.info.get_glyph_shape g.id).getD []) (0, 0)
  ∧ (∀ (w : Vec2) (qx qy : ℚ) (vert : Vertex) (rest : List Vertex) (ox oy : ℚ),
      (vert.vtype = VertexType.MoveTo →
        drawVerts w qx qy (vert :: rest) (ox, oy)
          = PathOp.MoveTo ((vert.x : ℚ) * w.x + qx) (-(vert.y : ℚ) * w.y + qy)
            :: drawVerts w qx qy rest
                ((vert.x : ℚ) * w.x + qx, -(vert.y : ℚ) * w.y + qy))
    ∧ (vert.vtype = VertexType.LineTo →
        (drawVerts w qx qy (vert :: rest) (ox, oy)
            = PathOp.LineClose :: drawVerts w qx qy rest (ox, oy)
          ↔ ((vert.x : ℚ) * w.x + qx = ox ∧ -(vert.y : ℚ) * w.y + qy = oy))
        ∧ (¬ ((vert.x : ℚ) * w.x + qx = ox ∧ -(vert.y : ℚ) * w.y + qy = oy) →
          drawVerts w qx qy (vert :: rest) (ox, oy)
            = PathOp.LineTo ((vert.x : ℚ) * w.x + qx) (-(vert.y : ℚ) * w.y + qy)
              :: drawVerts w qx qy rest (ox, oy)))
    ∧ (vert.vtype = VertexType.CurveTo →
        (drawVerts w qx qy (vert :: rest) (ox, oy)
            = PathOp.QuadClose ((vert.cx : ℚ) * w.x + qx)
                (-(vert.cy : ℚ) * w.y + qy) :: drawVerts w qx qy rest (ox, oy)
          ↔ ((vert.x : ℚ) * w.x + qx = ox ∧ -(vert.y : ℚ) * w.y + qy = oy))
        ∧ (¬ ((vert.x : ℚ) * w.x + qx = ox ∧ -(vert.y : ℚ) * w.y + qy = oy) →
          drawVerts w qx qy (vert :: rest) (ox, oy)
            = PathOp.QuadTo ((vert.x : ℚ) * w.x + qx) (-(vert.y : ℚ) * w.y + qy)
                ((vert.cx : ℚ) * w.x + qx) (-(vert.cy : ℚ) * w.y + qy)
              :: drawVerts w qx qy rest (ox, oy)))) := by
  refine ⟨rfl, ?_⟩
  intro w qx qy vert rest ox oy
  refine ⟨fun h => drawVerts_move w qx qy vert rest (ox, oy) h,
    fun h => ⟨⟨?_, fun he => drawVerts_line_close w qx qy vert rest ox oy h he⟩,
      fun he => drawVerts_line_open w qx qy vert rest ox oy h he⟩,
    fun h => ⟨⟨?_, fun he => drawVerts_curve_close w qx qy vert rest ox oy h he⟩,
      fun he => drawVerts_curve_open w qx qy vert rest ox oy h he⟩⟩
  · intro heq
    by_cases he : ((vert.x : ℚ) * w.x + qx = ox ∧ -(vert.y : ℚ) * w.y + qy = oy)
    · exact he
    · rw [drawVerts_line_open w qx qy vert rest ox oy h he] at heq
      injection heq with h1 h2
      exact PathOp.noConfusion h1
  · intro heq
    by_cases he : ((vert.x : ℚ) * w.x + qx = ox ∧ -(vert.y : ℚ) * w.y + qy = oy)
    · exact he
    · rw [drawVerts_curve_open w qx qy vert rest ox oy h he] at heq
      injection heq with h1 h2
      exact PathOp.noConfusion h1

/-- An accessor whose glyph outline is the spec's synthetic triangle
`[MoveTo(0,0), LineTo(10,0), LineTo(10,10), LineTo(0,0)]`, with zero ascent. -/
def fiTri : FontInfo :=
  { fi0 with
    get_v_metrics := ⟨0, 0, 0⟩
    get_glyph_shape := fun _ => some
      [⟨VertexType.MoveTo, 0, 0, 0, 0⟩, ⟨VertexType.LineTo, 10, 0, 0, 0⟩,
        ⟨VertexType.LineTo, 10, 10, 0, 0⟩, ⟨VertexType.LineTo, 0, 0, 0, 0⟩] }

/-- Witness for C2, plus the triangle evaluated end to end: the final
`LineTo(0,0)` closes back to the `MoveTo` origin and becomes `LineClose`. -/
theorem draw_transform_wit :
    (⟨⟨f0, 0⟩, ⟨1, 1⟩⟩ : Glyph).draw 3 7
      = drawVerts ⟨1, 1⟩ 3 (7 + (f0.info.get_v_metrics.ascent : ℚ) * 1)
          ((f0.info.get_glyph_shape 0).getD []) (0, 0)
  ∧ drawVerts ⟨1, 1⟩ 0 0 [⟨VertexType.LineTo, 3, 4, 0, 0⟩] (0, 0)
      = PathOp.LineTo (((3 : Int) : ℚ) * 1 + 0) (-((4 : Int) : ℚ) * 1 + 0)
        :: drawVerts ⟨1, 1⟩ 0 0 [] (0, 0)
  ∧ (⟨⟨⟨fiTri⟩, 0⟩, ⟨1, 1⟩⟩ : Glyph).draw 0 0
      = [PathOp.MoveTo 0 0, PathOp.LineTo 10 0, PathOp.LineTo 10 (-10),
          PathOp.LineClose] := by
  refine ⟨(draw_transform_spec ⟨⟨f0, 0⟩, ⟨1, 1⟩⟩ 3 7).1, ?_,
    by norm_num [Glyph.draw, Glyph.font, Glyph.id, fiTri, fi0, Font.v_metrics,
      drawVerts]⟩
  exact (((draw_transform_spec (⟨⟨f0, 0⟩, ⟨1, 1⟩⟩ : Glyph) 3 7).2 ⟨1, 1⟩ 0 0
    ⟨VertexType.LineTo, 3, 4, 0, 0⟩ [] 0 0).2.1 rfl).2 (by norm_num)

/-- Does the sequence start with a `MoveTo` operation? -/
def startsWithMove : List PathOp → Bool
  | PathOp.MoveTo _ _ :: _ => true
  | _ => false

/-- Is this a sub-path-closing operation? -/
def PathOp.isClose : PathOp → Bool
  | .LineClose => true
  | .QuadClose _ _ => true
  | _ => false

/-- Is this a `MoveTo` operation? -/
def PathOp.isMove : PathOp → Bool
  | .MoveTo _ _ => true
  | _ => false

/-- Every close operation in the sequence has an earlier `MoveTo`. -/
def closedOnlyAfterMove (ops : List PathOp) : Prop :=
  ∀ i (h : i < ops.length), (ops.get ⟨i, h⟩).isClose = true →
    ∃ j, ∃ hj : j < ops.length, j < i ∧ (ops.get ⟨j, hj⟩).isMove = true

/-- An accessor whose glyph 0 outline starts with a `LineTo` vertex at the
design-space origin (zero ascent): a vertex list not beginning with `MoveTo`. -/
def fiLine : FontInfo :=
  { fi0 with
    get_v_metrics := ⟨0, 0, 0⟩
    get_glyph_shape := fun _ => some [⟨VertexType.LineTo, 0, 0, 0, 0⟩] }

/-- C8 counterexample: fed the vertex list `[LineTo(0,0)]` (with zero ascent,
unit scale, origin `(0,0)`), the converter emits `[LineClose]`: a non-empty
output that does not start with `MoveTo`, and whose close operation is
preceded by no `MoveTo`. -/
theorem path_starts_move_cex :
    (⟨⟨⟨fiLine⟩, 0⟩, ⟨1, 1⟩⟩ : Glyph).draw 0 0 = [PathOp.LineClose]
  ∧ startsWithMove ((⟨⟨⟨fiLine⟩, 0⟩, ⟨1, 1⟩⟩ : Glyph).draw 0 0) = false
  ∧ (⟨⟨⟨fiLine⟩, 0⟩, ⟨1, 1⟩⟩ : Glyph).draw 0 0 ≠ [] := by
  have hd : (⟨⟨⟨fiLine⟩, 0⟩, ⟨1, 1⟩⟩ : Glyph).draw 0 0 = [PathOp.LineClose] := by
    norm_num [Glyph.draw, Glyph.font, Glyph.id, fiLine, fi0, Font.v_metrics,
      drawVerts]
  refine ⟨hd, ?_, ?_⟩
  · rw [hd]
    rfl
  · rw [hd]
    intro h
    exact List.noConfusion h

/-- C8 (amended): for a glyph whose raw outline vertex list is empty or
begins with a `MoveTo` vertex — as actual glyph outlines do — a non-empty
emitted sequence starts with `MoveTo`, and every `LineClose`/`QuadClose` is
preceded by an earlier `MoveTo` operation. -/
theorem path_wellformed_spec (g : Glyph) (px py : ℚ)
    (h : g.font.info.get_glyph_shape g.id = none
      ∨ g.font.info.get_glyph_shape g.id = some []
      ∨ ∃ vert rest, g.font.info.get_glyph_shape g.id = some (vert :: rest)
          ∧ vert.vtype = VertexType.MoveTo) :
    (g.draw px py ≠ [] → startsWithMove (g.draw px py) = true)
  ∧ closedOnlyAfterMove (g.draw px py) := by
  rcases h with h | h | ⟨vert, rest, hsh, hmv⟩
  · rw [draw_nil g px py (Or.inl h)]
    exact ⟨fun hne => absurd rfl hne,
      fun i hi _ => absurd hi (Nat.not_lt_zero i)⟩
  · rw [draw_nil g px py (Or.inr h)]
    exact ⟨fun hne => absurd rfl hne,
      fun i hi _ => absurd hi (Nat.not_lt_zero i)⟩
  · have hd : g.draw px py
        = PathOp.MoveTo ((vert.x : ℚ) * g.v.x + px)
            (-(vert.y : ℚ) * g.v.y + (py + g.font.v_metrics g.v))
          :: drawVerts g.v px (py + g.font.v_metrics g.v) rest
              ((vert.x : ℚ) * g.v.x + px,
                -(vert.y : ℚ) * g.v.y + (py + g.font.v_metrics g.v)) := by
      show drawVerts g.v px (py + g.font.v_metrics g.v)
          ((g.font.info.get_glyph_shape g.id).getD []) (0, 0) = _
      rw [hsh]
      exact drawVerts_move g.v px (py + g.font.v_metrics g.v) vert rest (0, 0) hmv
    rw [hd]
    refine ⟨fun _ => rfl, ?_⟩
    intro i hi hcl
    match i, hi, hcl with
    | 0, hi, hcl => exact absurd hcl (by simp [PathOp.isClose])
    | n + 1, hi, hcl =>
      exact ⟨0, Nat.succ_pos _, Nat.succ_pos n, rfl⟩

/-- Witness for C8 at the triangle glyph: its outline starts with `MoveTo`,
so the emitted path is well formed. -/
theorem path_wellformed_wit :
    ((⟨⟨⟨fiTri⟩, 0⟩, ⟨1, 1⟩⟩ : Glyph).draw 0 0 ≠ [] →
      startsWithMove ((⟨⟨⟨fiTri⟩, 0⟩, ⟨1, 1⟩⟩ : Glyph).draw 0 0) = true)
  ∧ closedOnlyAfterMove ((⟨⟨⟨fiTri⟩, 0⟩, ⟨1, 1⟩⟩ : Glyph).draw 0 0) :=
  path_wellformed_spec (⟨⟨⟨fiTri⟩, 0⟩, ⟨1, 1⟩⟩ : Glyph) 0 0
    (Or.inr (Or.inr ⟨⟨VertexType.MoveTo, 0, 0, 0, 0⟩, _, rfl, rfl⟩))

/-- The `into_fonts` loop from `start`: when the next `k` indices yield valid
fonts and index `start + k` is out of bounds, it returns those `k` fonts in
index order. -/
theorem into_fonts_aux_ok (tt : TT) (c : FontCollection) (fs : Nat → Font) :
    ∀ (k start fuel : Nat),
    (∀ i, i < k → c.font_at tt (start + i) = Except.ok (fs (start + i))) →
    c.font_at tt (start + k) = Except.error Error.CollectionIndexOutOfBounds →
    k < fuel →
    c.into_fonts_aux tt fuel start
      = some (FontsResult.ok ((List.range k).map (fun j => fs (start + j)))) := by
  intro k
  induction k with
  | zero =>
    intro start fuel h1 h2 hf
    cases fuel with
    | zero => omega
    | succ fuel =>
      rw [Nat.add_zero] at h2
      unfold FontCollection.into_fonts_aux
      simp [h2]
  | succ k ih =>
    intro start fuel h1 h2 hf
    cases fuel with
    | zero => omega
    | succ fuel =>
      have h0 : c.font_at tt start = Except.ok (fs start) := by
        have := h1 0 (Nat.succ_pos k)
        rwa [Nat.add_zero] at this
      have hrec := ih (start + 1) fuel
        (fun i hi => by
          have := h1 (i + 1) (Nat.succ_lt_succ hi)
          rwa [show start + (i + 1) = start + 1 + i by omega] at this)
        (by rwa [show start + 1 + k = start + (k + 1) by omega])
        (Nat.lt_of_succ_lt_succ hf)
      unfold FontCollection.into_fonts_aux
      simp only [h0, hrec]
      rw [List.range_succ_eq_map, List.map_cons, List.map_map, Nat.add_zero]
      refine congrArg _ (congrArg _ (congrArg _ ?_))
      apply List.map_congr_left
      intro a _
      exact congrArg fs (by omega)

/-- The `into_fonts` loop from `start`: when the next `k` indices yield valid
fonts but index `start + k` yields `IllFormed`, the `unwrap` panics. -/
theorem into_fonts_aux_abort (tt : TT) (c : FontCollection) (fs : Nat → Font) :
    ∀ (k start fuel : Nat),
    (∀ i, i < k → c.font_at tt (start + i) = Except.ok (fs (start + i))) →
    c.font_at tt (start + k) = Except.error Error.IllFormed →
    k < fuel →
    c.into_fonts_aux tt fuel start = some FontsResult.aborted := by
  intro k
  induction k with
  | zero =>
    intro start fuel h1 h2 hf
    cases fuel with
    | zero => omega
    | succ fuel =>
      rw [Nat.add_zero] at h2
      unfold FontCollection.into_fonts_aux
      simp [h2]
  | succ k ih =>
    intro start fuel h1 h2 hf
    cases fuel with
    | zero => omega
    | succ fuel =>
      have h0 : c.font_at tt start = Except.ok (fs start) := by
        have := h1 0 (Nat.succ_pos k)
        rwa [Nat.add_zero] at this
      have hrec := ih (start + 1) fuel
        (fun i hi => by
          have := h1 (i + 1) (Nat.succ_lt_succ hi)
          rwa [show start + (i + 1) = start + 1 + i by omega] at this)
        (by rwa [show start + 1 + k = start + (k + 1) by omega])
        (Nat.lt_of_succ_lt_succ hf)
      unfold FontCollection.into_fonts_aux
      simp [h0, hrec]

/-- C6 (amended): `into_fonts` calls `font_at` for increasing indices from 0
until `CollectionIndexOutOfBounds`; provided every index below the
terminating one yields a valid font, it returns exactly those fonts in index
order; if some index yields `IllFormed` first, the loop panics on `unwrap`
instead of returning the valid fonts. -/
theorem into_fonts_ordered_spec (tt : TT) (c : FontCollection)
    (fs : Nat → Font) :
    (∀ n fuel, (∀ i, i < n → c.font_at tt i = Except.ok (fs i)) →
      c.font_at tt n = Except.error Error.CollectionIndexOutOfBounds →
      n < fuel →
      c.into_fonts tt fuel = some (FontsResult.ok ((List.range n).map fs)))
  ∧ (∀ m fuel, (∀ i, i < m → c.font_at tt i = Except.ok (fs i)) →
      c.font_at tt m = Except.error Error.IllFormed →
      m < fuel →
      c.into_fonts tt fuel = some FontsResult.aborted) := by
  constructor
  · intro n fuel h1 h2 hf
    have h3 := into_fonts_aux_ok tt c fs n 0 fuel
      (fun i hi => by simpa using h1 i hi) (by simpa using h2) hf
    have h4 : (List.range n).map (fun j => fs (0 + j)) = (List.range n).map fs := by
      apply List.map_congr_left
      intro a _
      exact congrArg fs (Nat.zero_add a)
    unfold FontCollection.into_fonts
    rw [h3, h4]
  · intro m fuel h1 h2 hf
    exact into_fonts_aux_abort tt c fs m 0 fuel
      (fun i hi => by simpa using h1 i hi) (by simpa using h2) hf

/-- Witness for C6: the two-font collection over `ttMulti`: `font_at 0` and
`font_at 1` succeed, `font_at 2` is out of bounds, and `into_fonts` yields
exactly the two fonts in index order. -/
theorem into_fonts_ordered_wit :
    FontCollection.into_fonts ttMulti ⟨[]⟩ 3
      = some (FontsResult.ok
          ((List.range 2).map (fun _ => (⟨fi0⟩ : Font)))) :=
  (into_fonts_ordered_spec ttMulti ⟨[]⟩ (fun _ => ⟨fi0⟩)).1 2 3
    (fun i hi => by
      have h : i = 0 ∨ i = 1 := by omega
      rcases h with h | h <;> subst h <;> rfl)
    rfl (by omega)

/-- A collaborator reporting one entry (index 0) whose accessor construction
fails: `font_at 0` is `IllFormed`, `font_at 1` is out of bounds. -/
def ttIll : TT :=
  { is_font := fun _ => false
    get_font_offset_for_index := fun _ i => if i = 0 then some 0 else none
    font_info_new := fun _ _ => none }

/-- C6 counterexample: on a collection whose only entry is ill-formed, the
loop panics on `unwrap` (`aborted`) instead of reaching the out-of-bounds
index and returning the sequence of valid fonts obtained (here `[]`). -/
theorem into_fonts_illformed_cex :
    FontCollection.font_at ttIll ⟨[]⟩ 0 = Except.error Error.IllFormed
  ∧ FontCollection.font_at ttIll ⟨[]⟩ 1
      = Except.error Error.CollectionIndexOutOfBounds
  ∧ FontCollection.into_fonts ttIll ⟨[]⟩ 2 = some FontsResult.aborted
  ∧ FontCollection.into_fonts ttIll ⟨[]⟩ 2 ≠ some (FontsResult.ok []) := by
  refine ⟨rfl, rfl, rfl, ?_⟩
  intro h
  exact FontsResult.noConfusion (Option.some.inj h)

end Fonterator
